import Mathlib

/-!
Verification development for the `assistant` protection domain of the
banscii demo (`src/crates/assistant/src/main.rs`).

The component is single-threaded and event-driven, so its behaviour is
embedded as pure functions:

* the serial-notification handler (`ThisHandler::notified`) becomes a
  state machine over the line buffer, processing the list of bytes that
  the driver makes available and emitting a trace of serial/protocol
  events;
* `ThisHandler::try_create` becomes a function from the buffered bytes
  to the events it produces (UTF-8 validation mirrors
  `core::str::from_utf8`);
* `ThisHandler::create` becomes a function of the two shared regions,
  the draft, and the renderer's reply; Rust panics (slice-index bounds
  violations, the status `assert_eq!`, `Result::unwrap`) are modelled as
  `none`, i.e. a halted process.

Bytes are modelled as `Nat` (a `u8` value is `< 256`; the definitions
are total on `Nat` and agree with the Rust semantics on byte values).
-/

namespace Banscii

/-- `const MAX_SUBJECT_LEN: usize = 16;` -/
def MAX_SUBJECT_LEN : Nat := 16

/-- `const REGION_SIZE: usize = 0x4_000;` -/
def REGION_SIZE : Nat := 0x4000

/-- `u8::is_ascii` of the char obtained via `char::from(b)`: the code point is `b`,
and `char::is_ascii` holds iff the code point is at most `0x7F`. -/
def is_ascii (b : Nat) : Bool := b ≤ 0x7F

/-- `char::is_ascii_control` of `char::from(b)`: C0 controls (`0x00..=0x1F`) and DEL (`0x7F`). -/
def is_ascii_control (b : Nat) : Bool := b ≤ 0x1F || b = 0x7F

/-- A byte accepted into the line buffer by `notified`: printable ASCII. -/
def printable (b : Nat) : Bool := is_ascii b && !is_ascii_control b

/-- A UTF-8 continuation byte, `0x80..=0xBF`. -/
def isCont (b : Nat) : Bool := 0x80 ≤ b && b ≤ 0xBF

/-- Classification of a UTF-8 lead byte above `0x7F` per the Unicode
well-formed byte-sequence table (as used by `core::str::from_utf8`):
`some (n, lo, hi)` means the lead must be followed by `n` continuation
bytes, the first of which lies in `lo..=hi` and the rest in `0x80..=0xBF`.
`none` is an invalid lead (stray continuation bytes, overlong leads
`0xC0`/`0xC1`, and leads above `0xF4`). -/
def contRange (b : Nat) : Option (Nat × Nat × Nat) :=
  if b < 0xC2 then none
  else if b ≤ 0xDF then some (1, 0x80, 0xBF)
  else if b = 0xE0 then some (2, 0xA0, 0xBF)
  else if b ≤ 0xEC then some (2, 0x80, 0xBF)
  else if b = 0xED then some (2, 0x80, 0x9F)
  else if b ≤ 0xEF then some (2, 0x80, 0xBF)
  else if b = 0xF0 then some (3, 0x90, 0xBF)
  else if b ≤ 0xF3 then some (3, 0x80, 0xBF)
  else if b = 0xF4 then some (3, 0x80, 0x8F)
  else none

/-- The UTF-8 validation loop of `core::str::from_utf8`, one byte at a
time: `pending` is the number of continuation bytes still expected, and
`lo..=hi` the admissible range for the next one (subsequent continuation
bytes are in `0x80..=0xBF`). -/
def utf8Run : Nat → Nat → Nat → List Nat → Bool
  | 0, _, _, [] => true
  | _ + 1, _, _, [] => false
  | 0, _, _, b :: rest =>
    if b ≤ 0x7F then utf8Run 0 0 0 rest
    else
      match contRange b with
      | none => false
      | some (n, lo, hi) => utf8Run n lo hi rest
  | pending + 1, lo, hi, b :: rest =>
    if lo ≤ b ∧ b ≤ hi then utf8Run pending 0x80 0xBF rest else false

/-- Validity of a byte sequence as UTF-8, mirroring `core::str::from_utf8`
(no overlong forms, no surrogates, no code points above `U+10FFFF`). -/
def utf8Valid (l : List Nat) : Bool := utf8Run 0 0 0 l

/-- Observable actions of the input assembler on the serial line, plus the
hand-off to the protocol client.  `request s` marks the call
`self.create(&subject)` with subject bytes `s`; the serial output that
`create` itself produces is modelled separately (see `create` below). -/
inductive Event where
  | echoNewline : Event
  | prompt : Event
  | echo : Nat → Event
  | writeLine : List Char → Event
  | request : List Nat → Event
deriving DecidableEq

/-- The text of `writeln!(self.serial, "\n(char limit reached)")`. -/
def limitLine : List Char := "\n(char limit reached)".toList

/-- The text of `writeln!(self.serial, "error: input is not valid utf-8")`. -/
def utf8ErrLine : List Char := "error: input is not valid utf-8".toList

/-- `ThisHandler::try_create`: the buffer is moved out (leaving it empty) and
validated as UTF-8; on success `create` runs on the subject, otherwise an
error line is printed.  Returns the events produced; the buffer is empty
afterwards in every case. -/
def try_create (buffer : List Nat) : List Event :=
  if utf8Valid buffer then [Event.request buffer] else [Event.writeLine utf8ErrLine]

/-- One iteration of the `while let Ok(b) = self.serial.read()` loop body in
`ThisHandler::notified`: returns the new buffer and the events emitted. -/
def handleByte (buffer : List Nat) (b : Nat) : List Nat × List Event :=
  if b = 10 ∨ b = 13 then
    ([], Event.echoNewline :: (if buffer.isEmpty then [] else try_create buffer) ++ [Event.prompt])
  else if printable b then
    if buffer.length = MAX_SUBJECT_LEN then
      ([b], Event.writeLine limitLine :: try_create buffer ++ [Event.prompt, Event.echo b])
    else
      (buffer ++ [b], [Event.echo b])
  else
    (buffer, [])

/-- `ThisHandler::notified` on the serial channel: drains the list of
available input bytes in order, threading the line buffer. -/
def notified (buffer : List Nat) : List Nat → List Nat × List Event
  | [] => (buffer, [])
  | b :: bs =>
    let r := handleByte buffer b
    let r2 := notified r.1 bs
    (r2.1, r.2 ++ r2.2)

/-! ## Protocol client and output renderer (`ThisHandler::create`) -/

/-- `banscii_assistant_core::Draft` as consumed by `create`: a pixel byte
buffer and its dimensions.  (The crate that builds a `Draft` from a subject
is out of scope; `create` is parametric in the draft it receives.) -/
structure Draft where
  pixel_data : List Nat
  height : Nat
  width : Nat
deriving DecidableEq

/-- `banscii_artist_interface_types::Request`. -/
structure Request where
  height : Nat
  width : Nat
  draft_start : Nat
  draft_size : Nat
deriving DecidableEq

/-- `banscii_artist_interface_types::Response`. -/
structure Response where
  height : Nat
  width : Nat
  masterpiece_start : Nat
  masterpiece_size : Nat
  signature_start : Nat
  signature_size : Nat
deriving DecidableEq

/-- `sel4cp::message::StatusMessageLabel`.  The reply label of the call is
modelled as the result of `label().try_into()`: `none` stands for a raw
label word that parses to neither variant. -/
inductive StatusMessageLabel where
  | Ok : StatusMessageLabel
  | Error : StatusMessageLabel
deriving DecidableEq

/-- Pieces of serial output produced by `create`: a raw pixel byte written
with `serial.write(b)`, the newline produced by `newline(...)` (an empty
`writeln!`), or a text line written with `writeln!`. -/
inductive OutChunk where
  | raw : Nat → OutChunk
  | newline : OutChunk
  | text : List Char → OutChunk
deriving DecidableEq

/-- Cross-component data-exchange steps taken by `create`, in order:
writing the draft into the out region, the blocking `pp_call`, and the two
copies out of the in region.  Bounds-violating accesses halt the process
before the corresponding step event is recorded. -/
inductive PEvent where
  | wroteOutRegion : Nat → Nat → PEvent
  | call : Request → PEvent
  | copiedMasterpiece : Nat → Nat → PEvent
  | copiedSignature : Nat → Nat → PEvent
deriving DecidableEq

/-- The data held by a completed `create` cycle: the out region after the
draft copy, the request sent, the decoded dimensions, the two local buffers
copied out of the in region, and the serial output emitted. -/
structure CreateOk where
  region_out : List Nat
  request : Request
  height : Nat
  width : Nat
  pixel_data : List Nat
  signature : List Nat
  output : List OutChunk
deriving DecidableEq

/-- `region.as_mut_ptr().index(start..start+data.len()).copy_from_slice(data)`:
replaces `data.length` bytes of `region` starting at `start`; the slice
index panics (`none`) when the interval exceeds the region. -/
def writeRegion (region : List Nat) (start : Nat) (data : List Nat) : Option (List Nat) :=
  if start + data.length ≤ region.length then
    some (region.take start ++ data ++ region.drop (start + data.length))
  else none

/-- `region.as_ptr().index(start..start+size).copy_to_vec()`: reads `size`
bytes of `region` starting at `start`; the slice index panics (`none`) when
the interval exceeds the region.  In the `some` case only positions
`start..start+size`, all inside the region, are inspected. -/
def sliceRegion (region : List Nat) (start size : Nat) : Option (List Nat) :=
  if start + size ≤ region.length then some ((region.drop start).take size) else none

/-- `pixel_data[i]` for each index `i` in turn, in the order the nested
pixel-grid loops visit them: `none` as soon as one index is out of bounds
(the Rust indexing panics there). -/
def readPixels (pixel : List Nat) : List Nat → Option (List Nat)
  | [] => some []
  | i :: is =>
    match pixel.get? i with
    | none => none
    | some b => (readPixels pixel is).map (b :: ·)

/-- One row of the pixel grid: the raw bytes `pixel[row*width+col]` for
`col in 0..width`, followed by the newline after the row. -/
def rowChunks (pixel : List Nat) (width row : Nat) : Option (List OutChunk) :=
  (readPixels pixel ((List.range width).map (fun col => row * width + col))).map
    (fun bs => bs.map OutChunk.raw ++ [OutChunk.newline])

/-- The rows of the pixel grid for the given list of row indices. -/
def gridRows (pixel : List Nat) (width : Nat) : List Nat → Option (List OutChunk)
  | [] => some []
  | row :: rows =>
    match rowChunks pixel width row with
    | none => none
    | some cs => (gridRows pixel width rows).map (cs ++ ·)

/-- The `for row in 0..height { for col in 0..width { ... } }` output of
`create`: the grid rows (each ending in a newline) and the blank line after
the grid.  `none` models the panic on an out-of-bounds pixel index. -/
def pixelGridOut (height width : Nat) (pixel : List Nat) : Option (List OutChunk) :=
  (gridRows pixel width (List.range height)).map (· ++ [OutChunk.newline])

/-- `hex::encode` digit: lowercase hexadecimal. -/
def hexDigit (n : Nat) : Char :=
  if n < 10 then Char.ofNat (48 + n) else Char.ofNat (87 + n)

/-- `hex::encode` of one byte: two lowercase hex digits. -/
def hexByte (b : Nat) : List Char := [hexDigit (b / 16), hexDigit (b % 16)]

/-- `hex::encode` of a byte slice. -/
def hexEncode (bs : List Nat) : List Char := bs.flatMap hexByte

/-- Fuelled helper for `chunks32`; the fuel only bounds the recursion depth
and any fuel at least the list length gives the same result
(`chunks32Fuel_congr`). -/
def chunks32Fuel : Nat → List Nat → List (List Nat)
  | 0, _ => []
  | _, [] => []
  | fuel + 1, b :: rest => ((b :: rest).take 32) :: chunks32Fuel fuel ((b :: rest).drop 32)

/-- `signature.chunks(32)`: consecutive chunks of 32 bytes, the last chunk
possibly shorter, no empty chunks. -/
def chunks32 (l : List Nat) : List (List Nat) := chunks32Fuel l.length l

/-- The text of `writeln!(self.serial, "Signature:")`. -/
def sigHeader : List Char := "Signature:".toList

/-- The signature section of `create`'s serial output: the literal header
line, one lowercase-hex line per 32-byte chunk, and the trailing blank
line. -/
def signatureOutput (sig : List Nat) : List OutChunk :=
  OutChunk.text sigHeader ::
    (chunks32 sig).map (fun c => OutChunk.text (hexEncode c)) ++ [OutChunk.newline]

/-- `ThisHandler::create`, parametric in the two shared regions, the draft
obtained from the subject, and the renderer's reply (its parsed status
label and its decoded body; `none` for an undecodable body makes the
`recv().unwrap()` panic).  Returns the protocol events taken in order and,
unless the process halted (`none`), the completed cycle's data. -/
def create (region_out region_in : List Nat) (draft : Draft)
    (label : Option StatusMessageLabel) (body : Option Response) :
    List PEvent × Option CreateOk :=
  let draft_start := 0
  let draft_size := draft.pixel_data.length
  match writeRegion region_out draft_start draft.pixel_data with
  | none => ([], none)
  | some region_out2 =>
    let req : Request :=
      { height := draft.height, width := draft.width,
        draft_start := draft_start, draft_size := draft_size }
    let evs := [PEvent.wroteOutRegion draft_start draft_size, PEvent.call req]
    if label = some StatusMessageLabel.Ok then
      match body with
      | none => (evs, none)
      | some msg =>
        match sliceRegion region_in msg.masterpiece_start msg.masterpiece_size with
        | none => (evs, none)
        | some pixel_data =>
          let evs2 := evs ++ [PEvent.copiedMasterpiece msg.masterpiece_start msg.masterpiece_size]
          match sliceRegion region_in msg.signature_start msg.signature_size with
          | none => (evs2, none)
          | some signature =>
            let evs3 := evs2 ++ [PEvent.copiedSignature msg.signature_start msg.signature_size]
            match pixelGridOut msg.height msg.width pixel_data with
            | none => (evs3, none)
            | some grid =>
              (evs3, some
                { region_out := region_out2, request := req,
                  height := msg.height, width := msg.width,
                  pixel_data := pixel_data, signature := signature,
                  output := OutChunk.newline :: grid ++ signatureOutput signature })
    else (evs, none)

/-- The buffer states reachable by the assembler: printable ASCII content,
bounded length. -/
def GoodBuf (buf : List Nat) : Prop :=
  (∀ b ∈ buf, printable b = true) ∧ buf.length ≤ MAX_SUBJECT_LEN

/-! ## Lemmas about the input assembler -/

theorem printable_iff {b : Nat} : printable b = true ↔ 32 ≤ b ∧ b ≤ 126 := by
  simp only [printable, is_ascii, is_ascii_control, Bool.and_eq_true, Bool.not_eq_true',
    Bool.or_eq_false_iff, decide_eq_true_eq, decide_eq_false_iff_not]
  omega

theorem ascii_utf8Valid : ∀ l : List Nat, (∀ b ∈ l, b ≤ 0x7F) → utf8Valid l = true
  | [], _ => rfl
  | b :: rest, h => by
    have hb : b ≤ 0x7F := h b (by simp)
    have ih := ascii_utf8Valid rest (fun x hx => h x (by simp [hx]))
    simp only [utf8Valid] at ih ⊢
    rw [utf8Run, if_pos hb]
    exact ih

theorem goodBuf_utf8Valid {buf : List Nat} (h : GoodBuf buf) : utf8Valid buf = true :=
  ascii_utf8Valid buf fun b hb => by
    have := (printable_iff.mp (h.1 b hb)).2
    omega

theorem try_create_good {buf : List Nat} (h : GoodBuf buf) :
    try_create buf = [Event.request buf] := by
  simp [try_create, goodBuf_utf8Valid h]

theorem handleByte_good {buf : List Nat} (b : Nat) (h : GoodBuf buf) :
    GoodBuf (handleByte buf b).1 ∧ Event.writeLine utf8ErrLine ∉ (handleByte buf b).2 := by
  obtain ⟨hall, hlen⟩ := h
  have htc := try_create_good ⟨hall, hlen⟩
  unfold handleByte
  by_cases hterm : b = 10 ∨ b = 13
  · rw [if_pos hterm]
    refine ⟨⟨by simp, by simp [MAX_SUBJECT_LEN]⟩, ?_⟩
    by_cases hempty : buf.isEmpty <;> simp [hempty, htc]
  · rw [if_neg hterm]
    by_cases hp : printable b = true
    · rw [if_pos hp]
      by_cases hmax : buf.length = MAX_SUBJECT_LEN
      · rw [if_pos hmax]
        refine ⟨⟨by simp [hp], by simp [MAX_SUBJECT_LEN]⟩, ?_⟩
        have hne : utf8ErrLine ≠ limitLine := by decide
        simp [htc, hne]
      · rw [if_neg hmax]
        refine ⟨⟨?_, ?_⟩, by simp⟩
        · intro x hx
          rcases List.mem_append.mp hx with hx | hx
          · exact hall x hx
          · simp at hx; simpa [hx] using hp
        · simp only [List.length_append, List.length_cons, List.length_nil]
          simp only [MAX_SUBJECT_LEN] at hlen hmax ⊢
          omega
    · rw [if_neg hp]
      exact ⟨⟨hall, hlen⟩, by simp⟩

theorem notified_good (bs : List Nat) : ∀ buf : List Nat, GoodBuf buf →
    GoodBuf (notified buf bs).1 ∧ Event.writeLine utf8ErrLine ∉ (notified buf bs).2 := by
  induction bs with
  | nil => intro buf h; exact ⟨h, by simp [notified]⟩
  | cons b bs ih =>
    intro buf h
    obtain ⟨h1, h2⟩ := handleByte_good b h
    obtain ⟨h3, h4⟩ := ih _ h1
    simp only [notified, List.mem_append]
    exact ⟨h3, by tauto⟩

theorem notified_append (xs : List Nat) : ∀ (buf : List Nat) (ys : List Nat),
    notified buf (xs ++ ys) =
      ((notified (notified buf xs).1 ys).1,
       (notified buf xs).2 ++ (notified (notified buf xs).1 ys).2) := by
  induction xs with
  | nil => intro buf ys; simp [notified]
  | cons x xs ih => intro buf ys; simp [notified, ih, List.append_assoc]

/-- Processing a terminator-free run of bytes that keeps the buffer within
the limit: exactly the printable bytes are appended and echoed, nothing
else happens. -/
theorem notified_run (bs : List Nat) : ∀ buf : List Nat,
    (∀ b ∈ bs, ¬(b = 10 ∨ b = 13)) →
    buf.length + (bs.filter printable).length ≤ MAX_SUBJECT_LEN →
    notified buf bs = (buf ++ bs.filter printable, (bs.filter printable).map Event.echo) := by
  induction bs with
  | nil => intro buf _ _; simp [notified]
  | cons b bs ih =>
    intro buf hterm hlen
    have hb : ¬(b = 10 ∨ b = 13) := hterm b (by simp)
    by_cases hp : printable b = true
    · have hfil : (b :: bs).filter printable = b :: bs.filter printable := by
        simp [List.filter_cons, hp]
      rw [hfil] at hlen ⊢
      simp only [List.length_cons] at hlen
      have hmax : buf.length ≠ MAX_SUBJECT_LEN := by
        simp only [MAX_SUBJECT_LEN] at hlen ⊢
        omega
      simp only [notified, handleByte, if_neg hb, if_pos hp, if_neg hmax]
      rw [ih (buf ++ [b]) (fun x hx => hterm x (by simp [hx]))
        (by simp only [List.length_append, List.length_cons, List.length_nil]; omega)]
      simp [List.append_assoc]
    · have hfil : (b :: bs).filter printable = bs.filter printable := by
        simp [List.filter_cons, hp]
      rw [hfil] at hlen ⊢
      simp only [notified, handleByte, if_neg hb, if_neg hp]
      rw [ih buf (fun x hx => hterm x (by simp [hx])) hlen]
      simp

/-! ## Lemmas about the output renderer -/

theorem readPixels_eq_map (pixel : List Nat) :
    ∀ is : List Nat, (∀ i ∈ is, i < pixel.length) →
      readPixels pixel is = some (is.map (fun i => (pixel.get? i).getD 0)) := by
  intro is
  induction is with
  | nil => intro _; rfl
  | cons i is ih =>
    intro h
    have hi : i < pixel.length := h i (by simp)
    rw [readPixels, List.get?_eq_get hi, ih (fun x hx => h x (by simp [hx]))]
    simp [List.getElem?_eq_getElem hi]

theorem readPixels_none (pixel : List Nat) :
    ∀ is : List Nat, (∃ i ∈ is, pixel.length ≤ i) → readPixels pixel is = none := by
  intro is
  induction is with
  | nil => rintro ⟨i, hi, _⟩; cases hi
  | cons j is ih =>
    rintro ⟨i, hi, hlen⟩
    rw [readPixels]
    rcases List.mem_cons.mp hi with rfl | hi
    · rw [List.get?_eq_none.mpr hlen]
    · cases hj : pixel.get? j
      · rfl
      · rw [ih ⟨i, hi, hlen⟩]; rfl

theorem gridRows_eq_some (pixel : List Nat) (w : Nat) (f : Nat → List OutChunk) :
    ∀ rows : List Nat, (∀ r ∈ rows, rowChunks pixel w r = some (f r)) →
      gridRows pixel w rows = some (rows.flatMap f) := by
  intro rows
  induction rows with
  | nil => intro _; rfl
  | cons r rows ih =>
    intro h
    rw [gridRows, h r (by simp), ih (fun x hx => h x (by simp [hx]))]
    simp

theorem gridRows_none (pixel : List Nat) (w : Nat) :
    ∀ rows : List Nat, (∃ r ∈ rows, rowChunks pixel w r = none) →
      gridRows pixel w rows = none := by
  intro rows
  induction rows with
  | nil => rintro ⟨r, hr, _⟩; cases hr
  | cons q rows ih =>
    rintro ⟨r, hr, hnone⟩
    rw [gridRows]
    rcases List.mem_cons.mp hr with rfl | hr
    · rw [hnone]
    · cases hq : rowChunks pixel w q
      · rfl
      · rw [ih ⟨r, hr, hnone⟩]; rfl

/-- In-bounds pixel grid: the output is exactly, for each row, the raw
bytes `pixel[row*width+col]` for each column followed by a newline, and a
final blank line. -/
theorem pixelGridOut_some (height width : Nat) (pixel : List Nat)
    (hb : height * width ≤ pixel.length) :
    pixelGridOut height width pixel =
      some ((List.range height).flatMap
        (fun row => ((List.range width).map
          (fun col => OutChunk.raw ((pixel.get? (row * width + col)).getD 0))) ++
          [OutChunk.newline]) ++ [OutChunk.newline]) := by
  have hrow : ∀ r ∈ List.range height,
      rowChunks pixel width r =
        some (((List.range width).map
          (fun col => OutChunk.raw ((pixel.get? (r * width + col)).getD 0))) ++
          [OutChunk.newline]) := by
    intro r hr
    have hr' : r < height := List.mem_range.mp hr
    have hidx : ∀ i ∈ (List.range width).map (fun col => r * width + col),
        i < pixel.length := by
      intro i hi
      simp only [List.mem_map, List.mem_range] at hi
      obtain ⟨col, hcol, rfl⟩ := hi
      calc r * width + col < r * width + width := by omega
        _ = (r + 1) * width := by ring
        _ ≤ height * width := Nat.mul_le_mul_right width hr'
        _ ≤ pixel.length := hb
    unfold rowChunks
    rw [readPixels_eq_map pixel _ hidx]
    simp [List.map_map, Function.comp]
  unfold pixelGridOut
  rw [gridRows_eq_some pixel width _ (List.range height) hrow]
  rfl

/-- Out-of-bounds pixel grid: with positive dimensions and a pixel buffer
shorter than `height*width`, the grid loop hits an out-of-range index and
the process panics. -/
theorem pixelGridOut_none (height width : Nat) (pixel : List Nat)
    (hh : 0 < height) (hw : 0 < width) (hb : pixel.length < height * width) :
    pixelGridOut height width pixel = none := by
  have hbad : rowChunks pixel width (height - 1) = none := by
    unfold rowChunks
    rw [readPixels_none]
    · rfl
    · refine ⟨(height - 1) * width + (width - 1), ?_, ?_⟩
      · simp only [List.mem_map, List.mem_range]
        exact ⟨width - 1, by omega, rfl⟩
      · have hsum : (height - 1) * width + width = height * width := by
          calc (height - 1) * width + width = (height - 1 + 1) * width := by ring
            _ = height * width := by rw [Nat.sub_add_cancel hh]
        omega
  unfold pixelGridOut
  rw [gridRows_none pixel width _ ⟨height - 1, by simp [List.mem_range]; omega, hbad⟩]
  rfl

/-- The pixel-grid loop stays in bounds exactly when the pixel buffer holds
at least `height*width` bytes. -/
theorem pixelGridOut_isSome_iff (height width : Nat) (pixel : List Nat) :
    (pixelGridOut height width pixel).isSome = true ↔
      height * width ≤ pixel.length := by
  constructor
  · intro h
    by_contra hc
    push_neg at hc
    have hh : 0 < height := by
      rcases Nat.eq_zero_or_pos height with h0 | h0
      · subst h0; simp at hc
      · exact h0
    have hw : 0 < width := by
      rcases Nat.eq_zero_or_pos width with h0 | h0
      · subst h0; simp at hc
      · exact h0
    rw [pixelGridOut_none height width pixel hh hw hc] at h
    cases h
  · intro h
    rw [pixelGridOut_some height width pixel h]
    rfl

/-! ## Lemmas about hex encoding and chunking -/

theorem hexEncode_length (bs : List Nat) : (hexEncode bs).length = 2 * bs.length := by
  induction bs with
  | nil => rfl
  | cons b bs ih =>
    simp only [hexEncode, List.flatMap_cons, List.length_append, hexByte] at ih ⊢
    simp [ih]
    omega

theorem chunks32Fuel_nil (fuel : Nat) : chunks32Fuel fuel [] = [] := by
  cases fuel <;> rfl

theorem chunks32Fuel_congr (n : Nat) :
    ∀ f g l, l.length ≤ n → l.length ≤ f → l.length ≤ g →
      chunks32Fuel f (l : List Nat) = chunks32Fuel g l := by
  induction n with
  | zero =>
    intro f g l hn _ _
    have : l = [] := List.length_eq_zero.mp (Nat.le_zero.mp hn)
    subst this
    rw [chunks32Fuel_nil, chunks32Fuel_nil]
  | succ n ih =>
    intro f g l hn hf hg
    match l with
    | [] => rw [chunks32Fuel_nil, chunks32Fuel_nil]
    | b :: rest =>
      simp only [List.length_cons] at hn hf hg
      match f, g with
      | f + 1, g + 1 =>
        rw [chunks32Fuel, chunks32Fuel]
        congr 1
        exact ih f g ((b :: rest).drop 32)
          (by simp; omega) (by simp; omega) (by simp; omega)

theorem chunks32_cons (b : Nat) (rest : List Nat) :
    chunks32 (b :: rest) = ((b :: rest).take 32) :: chunks32 ((b :: rest).drop 32) := by
  unfold chunks32
  rw [List.length_cons, chunks32Fuel]
  congr 1
  exact chunks32Fuel_congr rest.length _ _ ((b :: rest).drop 32)
    (by simp) (by simp) (by simp)

theorem chunks32_length_aux (n : Nat) :
    ∀ l : List Nat, l.length ≤ n → (chunks32 l).length = (l.length + 31) / 32 := by
  induction n with
  | zero =>
    intro l hn
    have : l = [] := List.length_eq_zero.mp (Nat.le_zero.mp hn)
    subst this
    rfl
  | succ n ih =>
    intro l hn
    match l with
    | [] => rfl
    | b :: rest =>
      rw [chunks32_cons, List.length_cons]
      have hdrop := ih ((b :: rest).drop 32) (by simp at hn ⊢; omega)
      rw [hdrop]
      simp only [List.length_drop, List.length_cons]
      omega

theorem chunks32_length (l : List Nat) :
    (chunks32 l).length = (l.length + 31) / 32 :=
  chunks32_length_aux l.length l le_rfl

theorem chunks32_get_aux (n : Nat) :
    ∀ (l : List Nat) (i : Nat), l.length ≤ n → i < (chunks32 l).length →
      (chunks32 l).get? i = some ((l.drop (32 * i)).take 32) := by
  induction n with
  | zero =>
    intro l i hn hi
    have : l = [] := List.length_eq_zero.mp (Nat.le_zero.mp hn)
    subst this
    cases hi
  | succ n ih =>
    intro l i hn hi
    match l with
    | [] => cases hi
    | b :: rest =>
      rw [chunks32_cons]
      match i with
      | 0 => simp
      | i + 1 =>
        rw [chunks32_cons, List.length_cons] at hi
        simp only [List.length_cons] at hi hn
        rw [List.get?_cons_succ,
          ih ((b :: rest).drop 32) i (by simp; omega) (by omega)]
        rw [List.drop_drop]
        congr 3
        omega

theorem chunks32_get (l : List Nat) (i : Nat) (hi : i < (chunks32 l).length) :
    (chunks32 l).get? i = some ((l.drop (32 * i)).take 32) :=
  chunks32_get_aux l.length l i le_rfl hi

/-! ## Lemmas about the protocol client (`create`) -/

theorem writeRegion_zero_some {region data : List Nat}
    (h : data.length ≤ region.length) :
    writeRegion region 0 data = some (data ++ region.drop data.length) := by
  unfold writeRegion
  rw [if_pos (by omega)]
  simp

theorem writeRegion_zero_none {region data : List Nat}
    (h : region.length < data.length) :
    writeRegion region 0 data = none := by
  unfold writeRegion
  rw [if_neg (by omega)]

theorem sliceRegion_some {region : List Nat} {start size : Nat}
    (h : start + size ≤ region.length) :
    sliceRegion region start size = some ((region.drop start).take size) := by
  unfold sliceRegion
  rw [if_pos h]

theorem sliceRegion_none {region : List Nat} {start size : Nat}
    (h : region.length < start + size) :
    sliceRegion region start size = none := by
  unfold sliceRegion
  rw [if_neg (by omega)]

/-- `create` with an oversized draft payload: the out-region slice index
panics before anything is written or any call is made. -/
theorem create_writeFail {rO rI : List Nat} {d : Draft}
    (lbl : Option StatusMessageLabel) (body : Option Response)
    (h : rO.length < d.pixel_data.length) :
    create rO rI d lbl body = ([], none) := by
  simp only [create, writeRegion_zero_none h]

/-- `create` with a reply whose status label is not `Ok`: the
`assert_eq!` panics right after the call, before the body is decoded. -/
theorem create_statusFail {rO rI : List Nat} {d : Draft}
    {lbl : Option StatusMessageLabel} (body : Option Response)
    (h1 : d.pixel_data.length ≤ rO.length)
    (hlbl : lbl ≠ some StatusMessageLabel.Ok) :
    create rO rI d lbl body =
      ([PEvent.wroteOutRegion 0 d.pixel_data.length,
        PEvent.call { height := d.height, width := d.width,
                      draft_start := 0, draft_size := d.pixel_data.length }], none) := by
  simp only [create, writeRegion_zero_some h1, if_neg hlbl]

/-- `create` with a masterpiece interval that exceeds the in region: the
slice index panics right after the call, before any copy. -/
theorem create_sliceMasterFail {rO rI : List Nat} {d : Draft} {msg : Response}
    (h1 : d.pixel_data.length ≤ rO.length)
    (h2 : rI.length < msg.masterpiece_start + msg.masterpiece_size) :
    create rO rI d (some StatusMessageLabel.Ok) (some msg) =
      ([PEvent.wroteOutRegion 0 d.pixel_data.length,
        PEvent.call { height := d.height, width := d.width,
                      draft_start := 0, draft_size := d.pixel_data.length }], none) := by
  simp only [create, writeRegion_zero_some h1, sliceRegion_none h2]
  simp

/-- `create` with a signature interval that exceeds the in region: the
slice index panics after the masterpiece copy, before the signature copy. -/
theorem create_sliceSigFail {rO rI : List Nat} {d : Draft} {msg : Response}
    (h1 : d.pixel_data.length ≤ rO.length)
    (h2 : msg.masterpiece_start + msg.masterpiece_size ≤ rI.length)
    (h3 : rI.length < msg.signature_start + msg.signature_size) :
    create rO rI d (some StatusMessageLabel.Ok) (some msg) =
      ([PEvent.wroteOutRegion 0 d.pixel_data.length,
        PEvent.call { height := d.height, width := d.width,
                      draft_start := 0, draft_size := d.pixel_data.length },
        PEvent.copiedMasterpiece msg.masterpiece_start msg.masterpiece_size], none) := by
  simp only [create, writeRegion_zero_some h1, sliceRegion_some h2, sliceRegion_none h3]
  simp

/-- `create` with in-bounds copies but a pixel grid that overruns the
masterpiece buffer: the indexing panics during output. -/
theorem create_gridFail {rO rI : List Nat} {d : Draft} {msg : Response}
    (h1 : d.pixel_data.length ≤ rO.length)
    (h2 : msg.masterpiece_start + msg.masterpiece_size ≤ rI.length)
    (h3 : msg.signature_start + msg.signature_size ≤ rI.length)
    (hg : pixelGridOut msg.height msg.width
      ((rI.drop msg.masterpiece_start).take msg.masterpiece_size) = none) :
    create rO rI d (some StatusMessageLabel.Ok) (some msg) =
      ([PEvent.wroteOutRegion 0 d.pixel_data.length,
        PEvent.call { height := d.height, width := d.width,
                      draft_start := 0, draft_size := d.pixel_data.length },
        PEvent.copiedMasterpiece msg.masterpiece_start msg.masterpiece_size,
        PEvent.copiedSignature msg.signature_start msg.signature_size], none) := by
  simp only [create, writeRegion_zero_some h1, sliceRegion_some h2, sliceRegion_some h3, hg]
  simp

/-- `create` on the happy path: all four data-exchange steps happen, the
request describes the draft at offset 0, and the local buffers are the two
in-region slices. -/
theorem create_ok {rO rI : List Nat} {d : Draft} {msg : Response}
    (h1 : d.pixel_data.length ≤ rO.length)
    (h2 : msg.masterpiece_start + msg.masterpiece_size ≤ rI.length)
    (h3 : msg.signature_start + msg.signature_size ≤ rI.length)
    (h4 : msg.height * msg.width ≤ msg.masterpiece_size) :
    create rO rI d (some StatusMessageLabel.Ok) (some msg) =
      ([PEvent.wroteOutRegion 0 d.pixel_data.length,
        PEvent.call { height := d.height, width := d.width,
                      draft_start := 0, draft_size := d.pixel_data.length },
        PEvent.copiedMasterpiece msg.masterpiece_start msg.masterpiece_size,
        PEvent.copiedSignature msg.signature_start msg.signature_size],
       some
        { region_out := d.pixel_data ++ rO.drop d.pixel_data.length,
          request := { height := d.height, width := d.width,
                       draft_start := 0, draft_size := d.pixel_data.length },
          height := msg.height, width := msg.width,
          pixel_data := (rI.drop msg.masterpiece_start).take msg.masterpiece_size,
          signature := (rI.drop msg.signature_start).take msg.signature_size,
          output := OutChunk.newline ::
            ((List.range msg.height).flatMap
              (fun row => ((List.range msg.width).map
                (fun col => OutChunk.raw
                  ((((rI.drop msg.masterpiece_start).take msg.masterpiece_size).get?
                    (row * msg.width + col)).getD 0))) ++ [OutChunk.newline]) ++
              [OutChunk.newline]) ++
            signatureOutput ((rI.drop msg.signature_start).take msg.signature_size) }) := by
  have hlen : ((rI.drop msg.masterpiece_start).take msg.masterpiece_size).length =
      msg.masterpiece_size := by
    simp only [List.length_take, List.length_drop]
    omega
  have hgrid := pixelGridOut_some msg.height msg.width
    ((rI.drop msg.masterpiece_start).take msg.masterpiece_size) (by omega)
  simp only [create, writeRegion_zero_some h1, sliceRegion_some h2, sliceRegion_some h3, hgrid]
  simp

/-! ## Claims C1 to C4: the input assembler -/

/-- C1, counterexample.  The spec's Scenario C claims that input bytes that
are not valid text, terminated by newline, make the system print an
encoding-error message.  On the code this is false: bytes that are not
printable ASCII are filtered out before they reach the buffer, so on the
spec's own exemplar (a lone UTF-8 continuation byte `0x80` then `\n`) no
error line is printed — and in fact the error line is printed on no input
sequence whatsoever. -/
theorem scenarioC_no_error_message :
    utf8Valid [0x80] = false ∧
    notified [] [0x80, 10] = ([], [Event.echoNewline, Event.prompt]) ∧
    ∀ bs : List Nat, Event.writeLine utf8ErrLine ∉ (notified [] bs).2 :=
  ⟨by decide, by decide,
    fun bs => (notified_good bs [] ⟨by simp, by simp [MAX_SUBJECT_LEN]⟩).2⟩

/-- C1, amended.  For an input byte that is not ASCII (e.g. a lone UTF-8
continuation byte) terminated by newline, the byte is silently discarded
(never buffered), and the system echoes the newline and reprompts without
issuing any cross-component call, without printing an encoding-error
message, and with the buffer still empty. -/
theorem scenarioC_amended (b : Nat) (h : is_ascii b = false) :
    notified [] [b, 10] = ([], [Event.echoNewline, Event.prompt]) := by
  have hb : 0x80 ≤ b := by
    simp only [is_ascii, decide_eq_false_iff_not, Nat.not_le] at h
    omega
  have hterm : ¬(b = 10 ∨ b = 13) := by omega
  have hp : ¬printable b = true := fun hc => by
    have := (printable_iff.mp hc).2
    omega
  simp [notified, handleByte, if_neg hterm, if_neg hp]

/-- C1, witness for the amended claim at the spec's exemplar byte. -/
theorem scenarioC_amended_witness :
    notified [] [0x80, 10] = ([], [Event.echoNewline, Event.prompt]) :=
  scenarioC_amended 0x80 (by decide)

/-- C2.  Invariant of the assembler, from the initial empty buffer over any
input byte sequence: every stored byte is ASCII and not an ASCII control
character, the buffer length never exceeds `MAX_SUBJECT_LEN`, UTF-8
validation of the buffer always succeeds, and consequently the
`Err` branch of `try_create` (the encoding-error line) is unreachable. -/
theorem buffer_invariant (bs : List Nat) :
    (∀ b ∈ (notified [] bs).1, is_ascii b = true ∧ is_ascii_control b = false) ∧
    (notified [] bs).1.length ≤ MAX_SUBJECT_LEN ∧
    utf8Valid (notified [] bs).1 = true ∧
    Event.writeLine utf8ErrLine ∉ (notified [] bs).2 := by
  obtain ⟨⟨hall, hlen⟩, herr⟩ :=
    notified_good bs [] ⟨by simp, by simp [MAX_SUBJECT_LEN]⟩
  refine ⟨fun b hb => ?_, hlen, goodBuf_utf8Valid ⟨hall, hlen⟩, herr⟩
  have := hall b hb
  simp only [printable, Bool.and_eq_true, Bool.not_eq_true'] at this
  exact this

/-- C2, witness: the invariant evaluated on a concrete mixed input
(printable bytes, a non-ASCII byte, a control byte, a newline). -/
theorem buffer_invariant_witness :
    (∀ b ∈ (notified [] [104, 200, 105, 9, 10, 0x61]).1,
      is_ascii b = true ∧ is_ascii_control b = false) ∧
    (notified [] [104, 200, 105, 9, 10, 0x61]).1.length ≤ MAX_SUBJECT_LEN ∧
    utf8Valid (notified [] [104, 200, 105, 9, 10, 0x61]).1 = true ∧
    Event.writeLine utf8ErrLine ∉ (notified [] [104, 200, 105, 9, 10, 0x61]).2 :=
  buffer_invariant [104, 200, 105, 9, 10, 0x61]

/-- C3, counterexample.  The claim says that an input sequence with no CR
and no LF issues no render request and the buffer only grows.  Seventeen
printable bytes contain no terminator, yet the seventeenth triggers the
char-limit flush: a request carrying the first sixteen bytes is issued and
the buffer shrinks from sixteen bytes to one. -/
theorem no_terminator_refuted :
    (∀ b ∈ List.replicate 17 97, ¬(b = 10 ∨ b = 13)) ∧
    Event.request (List.replicate 16 97) ∈ (notified [] (List.replicate 17 97)).2 ∧
    (notified [] (List.replicate 17 97)).1 = [97] := by decide

/-- C3, amended.  For every input byte sequence containing no CR and no LF
and containing at most `MAX_SUBJECT_LEN` printable characters, processing
the sequence issues no render request, the buffer ends as exactly the
printable bytes of the input, it stays bounded by `MAX_SUBJECT_LEN`, and
it only grows: the buffer reached after any prefix of the input is a
prefix of the final buffer. -/
theorem no_terminator_no_request (bs : List Nat)
    (hterm : ∀ b ∈ bs, ¬(b = 10 ∨ b = 13))
    (hcount : (bs.filter printable).length ≤ MAX_SUBJECT_LEN) :
    (∀ s, Event.request s ∉ (notified [] bs).2) ∧
    (notified [] bs).1 = bs.filter printable ∧
    (notified [] bs).1.length ≤ MAX_SUBJECT_LEN ∧
    ∀ p t, bs = p ++ t → ∃ u, (notified [] p).1 ++ u = (notified [] bs).1 := by
  have hrun := notified_run bs [] hterm (by simpa using hcount)
  simp only [List.nil_append] at hrun
  refine ⟨?_, ?_, ?_, ?_⟩
  · intro s hs
    rw [hrun] at hs
    simp only [List.mem_map] at hs
    obtain ⟨x, _, hx⟩ := hs
    exact Event.noConfusion hx
  · rw [hrun]
  · rw [hrun]; simpa using hcount
  · intro p t hpt
    subst hpt
    have hp := notified_run p [] (fun x hx => hterm x (by simp [hx]))
      (by
        have : (p.filter printable).length ≤ ((p ++ t).filter printable).length := by
          simp [List.filter_append]
        simp only [List.length_nil]
        omega)
    simp only [List.nil_append] at hp
    refine ⟨t.filter printable, ?_⟩
    rw [hp, hrun, List.filter_append]

/-- C3, witness for the amended claim: two printable bytes and an ignored
control byte, no terminator. -/
theorem no_terminator_no_request_witness :
    (∀ s, Event.request s ∉ (notified [] [97, 98, 5]).2) ∧
    (notified [] [97, 98, 5]).1 = [97, 98, 5].filter printable ∧
    (notified [] [97, 98, 5]).1.length ≤ MAX_SUBJECT_LEN ∧
    (∀ p t, [97, 98, 5] = p ++ t →
      ∃ u, (notified [] p).1 ++ u = (notified [] [97, 98, 5]).1) :=
  no_terminator_no_request [97, 98, 5] (by decide) (by decide)

/-- C4.  For every sequence of `MAX_SUBJECT_LEN` printable bytes followed
by one more printable byte: the first sixteen are echoed and buffered; on
the seventeenth the system emits the "(char limit reached)" notice,
processes the buffered sixteen-byte subject as a request, reprompts, and
then echoes and buffers the seventeenth byte into a fresh one-byte line. -/
theorem char_limit_flush (bs : List Nat) (b : Nat)
    (hlen : bs.length = MAX_SUBJECT_LEN)
    (hbs : ∀ x ∈ bs, printable x = true)
    (hb : printable b = true) :
    notified [] (bs ++ [b]) =
      ([b], bs.map Event.echo ++
        [Event.writeLine limitLine, Event.request bs, Event.prompt, Event.echo b]) := by
  have hterm : ∀ x ∈ bs, ¬(x = 10 ∨ x = 13) := fun x hx => by
    have := printable_iff.mp (hbs x hx)
    omega
  have hfil : bs.filter printable = bs := List.filter_eq_self.mpr hbs
  have hrun := notified_run bs [] hterm (by simp [hfil, hlen])
  simp only [List.nil_append, hfil] at hrun
  have hbterm : ¬(b = 10 ∨ b = 13) := by
    have := printable_iff.mp hb
    omega
  have htc : try_create bs = [Event.request bs] :=
    try_create_good ⟨hbs, Nat.le_of_eq hlen⟩
  rw [notified_append, hrun]
  simp only [notified, handleByte, if_neg hbterm, if_pos hb, if_pos hlen, htc]
  simp

/-- C4, witness: sixteen copies of `a` then a `b`. -/
theorem char_limit_flush_witness :
    notified [] (List.replicate 16 97 ++ [98]) =
      ([98], (List.replicate 16 97).map Event.echo ++
        [Event.writeLine limitLine, Event.request (List.replicate 16 97),
         Event.prompt, Event.echo 98]) :=
  char_limit_flush (List.replicate 16 97) 98 (by decide) (by decide) (by decide)

/-! ## Claims C5 to C10: the protocol client and output renderer -/

/-- C5.  Round-trip exactness: for a Draft whose pixel payload has size
`S`, the Request sent to the renderer has `draft_start = 0` and
`draft_size = S`, and exactly `S` bytes are copied into the out region at
offset 0 (the first `S` bytes become the payload, the rest of the region
is untouched, the region size is unchanged); and for the decoded Response,
the local pixel and signature buffers are exactly the
`masterpiece_size`-byte slice at `masterpiece_start` and the
`signature_size`-byte slice at `signature_start` of the in region — never
more, never fewer. -/
theorem create_roundtrip (rO rI : List Nat) (d : Draft) (msg : Response)
    (h1 : d.pixel_data.length ≤ rO.length)
    (h2 : msg.masterpiece_start + msg.masterpiece_size ≤ rI.length)
    (h3 : msg.signature_start + msg.signature_size ≤ rI.length)
    (h4 : msg.height * msg.width ≤ msg.masterpiece_size) :
    ∃ evs r, create rO rI d (some StatusMessageLabel.Ok) (some msg) = (evs, some r) ∧
      r.request.draft_start = 0 ∧
      r.request.draft_size = d.pixel_data.length ∧
      r.region_out.take d.pixel_data.length = d.pixel_data ∧
      r.region_out.drop d.pixel_data.length = rO.drop d.pixel_data.length ∧
      r.region_out.length = rO.length ∧
      r.pixel_data = (rI.drop msg.masterpiece_start).take msg.masterpiece_size ∧
      r.pixel_data.length = msg.masterpiece_size ∧
      r.signature = (rI.drop msg.signature_start).take msg.signature_size ∧
      r.signature.length = msg.signature_size := by
  refine ⟨_, _, create_ok h1 h2 h3 h4, rfl, rfl, ?_, ?_, ?_, rfl, ?_, rfl, ?_⟩
  · exact List.take_left d.pixel_data (rO.drop d.pixel_data.length)
  · exact List.drop_left d.pixel_data (rO.drop d.pixel_data.length)
  · simp only [List.length_append, List.length_drop]
    omega
  · simp only [List.length_take, List.length_drop]
    omega
  · simp only [List.length_take, List.length_drop]
    omega

/-- C5, witness at a concrete draft and reply. -/
theorem create_roundtrip_witness :
    ∃ evs r, create [0, 0, 0, 0] [1, 2, 3, 4, 5] ⟨[9, 8], 1, 2⟩
        (some StatusMessageLabel.Ok) (some ⟨1, 2, 1, 2, 3, 2⟩) = (evs, some r) ∧
      r.request.draft_start = 0 ∧
      r.request.draft_size = (Draft.mk [9, 8] 1 2).pixel_data.length ∧
      r.region_out.take (Draft.mk [9, 8] 1 2).pixel_data.length =
        (Draft.mk [9, 8] 1 2).pixel_data ∧
      r.region_out.drop (Draft.mk [9, 8] 1 2).pixel_data.length =
        ([0, 0, 0, 0] : List Nat).drop (Draft.mk [9, 8] 1 2).pixel_data.length ∧
      r.region_out.length = ([0, 0, 0, 0] : List Nat).length ∧
      r.pixel_data = (([1, 2, 3, 4, 5] : List Nat).drop 1).take 2 ∧
      r.pixel_data.length = 2 ∧
      r.signature = (([1, 2, 3, 4, 5] : List Nat).drop 3).take 2 ∧
      r.signature.length = 2 :=
  create_roundtrip [0, 0, 0, 0] [1, 2, 3, 4, 5] ⟨[9, 8], 1, 2⟩ ⟨1, 2, 1, 2, 3, 2⟩
    (by decide) (by decide) (by decide) (by decide)

/-- C6.  Region-bounds violations are fatal.  With both shared regions of
capacity `REGION_SIZE`: a reply whose masterpiece interval exceeds the in
region halts the process with neither in-region copy performed (the model
reads no byte outside the region: `sliceRegion` refuses the interval); a
reply whose signature interval exceeds the in region halts the process
without the signature copy; and a draft pixel payload larger than
`REGION_SIZE` is fatal before any cross-component call is made (no events
at all, in particular no `call`). -/
theorem region_bounds_fatal (rO rI : List Nat) (d : Draft)
    (lbl : Option StatusMessageLabel) (msg : Response)
    (hO : rO.length = REGION_SIZE) (hI : rI.length = REGION_SIZE) :
    (REGION_SIZE < msg.masterpiece_start + msg.masterpiece_size →
      (create rO rI d lbl (some msg)).2 = none ∧
      (∀ s z, PEvent.copiedMasterpiece s z ∉ (create rO rI d lbl (some msg)).1) ∧
      (∀ s z, PEvent.copiedSignature s z ∉ (create rO rI d lbl (some msg)).1)) ∧
    (REGION_SIZE < msg.signature_start + msg.signature_size →
      (create rO rI d lbl (some msg)).2 = none ∧
      (∀ s z, PEvent.copiedSignature s z ∉ (create rO rI d lbl (some msg)).1)) ∧
    (REGION_SIZE < d.pixel_data.length →
      create rO rI d lbl (some msg) = ([], none)) := by
  refine ⟨?_, ?_, ?_⟩
  · intro hviol
    by_cases hS : d.pixel_data.length ≤ rO.length
    · by_cases hlbl : lbl = some StatusMessageLabel.Ok
      · subst hlbl
        rw [create_sliceMasterFail hS (by omega)]
        exact ⟨rfl, fun s z => by simp, fun s z => by simp⟩
      · rw [create_statusFail (some msg) hS hlbl]
        exact ⟨rfl, fun s z => by simp, fun s z => by simp⟩
    · rw [create_writeFail lbl (some msg) (by omega)]
      exact ⟨rfl, fun s z => by simp, fun s z => by simp⟩
  · intro hviol
    by_cases hS : d.pixel_data.length ≤ rO.length
    · by_cases hlbl : lbl = some StatusMessageLabel.Ok
      · subst hlbl
        by_cases hm : msg.masterpiece_start + msg.masterpiece_size ≤ rI.length
        · rw [create_sliceSigFail hS hm (by omega)]
          exact ⟨rfl, fun s z => by simp⟩
        · rw [create_sliceMasterFail hS (by omega)]
          exact ⟨rfl, fun s z => by simp⟩
      · rw [create_statusFail (some msg) hS hlbl]
        exact ⟨rfl, fun s z => by simp⟩
    · rw [create_writeFail lbl (some msg) (by omega)]
      exact ⟨rfl, fun s z => by simp⟩
  · intro hviol
    exact create_writeFail lbl (some msg) (by omega)

/-- C6, witness: regions of exactly `REGION_SIZE` bytes, an interval of
`16000+1000` bytes (masterpiece then signature violation), and an
oversized draft of `REGION_SIZE+1` bytes. -/
theorem region_bounds_fatal_witness :
    ((create (List.replicate REGION_SIZE 0) (List.replicate REGION_SIZE 0)
        ⟨[1], 1, 1⟩ (some StatusMessageLabel.Ok)
        (some ⟨1, 1, 16000, 1000, 0, 1⟩)).2 = none) ∧
    ((create (List.replicate REGION_SIZE 0) (List.replicate REGION_SIZE 0)
        ⟨[1], 1, 1⟩ (some StatusMessageLabel.Ok)
        (some ⟨1, 1, 0, 1, 16000, 1000⟩)).2 = none) ∧
    (create (List.replicate REGION_SIZE 0) (List.replicate REGION_SIZE 0)
        ⟨List.replicate 16385 0, 1, 1⟩ (some StatusMessageLabel.Ok)
        (some ⟨1, 1, 0, 1, 0, 1⟩) = ([], none)) :=
  ⟨((region_bounds_fatal (List.replicate REGION_SIZE 0) (List.replicate REGION_SIZE 0)
      ⟨[1], 1, 1⟩ (some StatusMessageLabel.Ok) ⟨1, 1, 16000, 1000, 0, 1⟩
      (List.length_replicate _ _) (List.length_replicate _ _)).1 (by decide)).1,
   ((region_bounds_fatal (List.replicate REGION_SIZE 0) (List.replicate REGION_SIZE 0)
      ⟨[1], 1, 1⟩ (some StatusMessageLabel.Ok) ⟨1, 1, 0, 1, 16000, 1000⟩
      (List.length_replicate _ _) (List.length_replicate _ _)).2.1 (by decide)).1,
   (region_bounds_fatal (List.replicate REGION_SIZE 0) (List.replicate REGION_SIZE 0)
      ⟨List.replicate 16385 0, 1, 1⟩ (some StatusMessageLabel.Ok) ⟨1, 1, 0, 1, 0, 1⟩
      (List.length_replicate _ _) (List.length_replicate _ _)).2.2
      (by show REGION_SIZE < (List.replicate 16385 (0 : Nat)).length
          rw [List.length_replicate]; decide)⟩

/-- C7.  A reply to the blocking call whose status label is not `Ok` (the
`Error` label, or a label word that parses to neither variant) is fatal:
the process halts immediately after the call, before decoding or acting on
the reply payload (whatever that payload is), and the trace shows exactly
one call — no retry. -/
theorem status_not_ok_fatal (rO rI : List Nat) (d : Draft)
    (lbl : Option StatusMessageLabel) (body : Option Response)
    (hcall : d.pixel_data.length ≤ rO.length)
    (hlbl : lbl ≠ some StatusMessageLabel.Ok) :
    create rO rI d lbl body =
      ([PEvent.wroteOutRegion 0 d.pixel_data.length,
        PEvent.call { height := d.height, width := d.width,
                      draft_start := 0, draft_size := d.pixel_data.length }], none) :=
  create_statusFail body hcall hlbl

/-- C7, witness at the `Error` label. -/
theorem status_not_ok_fatal_witness :
    create [0, 0] [1, 2] ⟨[5], 1, 1⟩ (some StatusMessageLabel.Error)
        (some ⟨1, 1, 0, 1, 0, 1⟩) =
      ([PEvent.wroteOutRegion 0 1,
        PEvent.call { height := 1, width := 1, draft_start := 0, draft_size := 1 }],
       none) :=
  status_not_ok_fatal [0, 0] [1, 2] ⟨[5], 1, 1⟩ (some StatusMessageLabel.Error)
    (some ⟨1, 1, 0, 1, 0, 1⟩) (by decide) (by decide)

/-- C8.  Signature output: the literal header line `Signature:`, then one
lowercase-hex line per consecutive 32-byte chunk of the signature, then a
trailing blank line; the number of hex lines is `ceil(L/32)`, the chunk at
index `i` is bytes `32*i..32*i+32`, every non-final line has 64 hex
characters, and the final line (when the signature is non-empty) has
`2*(L mod 32)` characters when `L mod 32 ≠ 0` and 64 otherwise. -/
theorem signature_hex_chunking (sig : List Nat) :
    signatureOutput sig =
      OutChunk.text sigHeader ::
        ((chunks32 sig).map (fun c => OutChunk.text (hexEncode c)) ++ [OutChunk.newline]) ∧
    (chunks32 sig).length = (sig.length + 31) / 32 ∧
    (∀ i, i < (chunks32 sig).length →
      (chunks32 sig).get? i = some ((sig.drop (32 * i)).take 32)) ∧
    (∀ i, i + 1 < (chunks32 sig).length →
      (hexEncode ((sig.drop (32 * i)).take 32)).length = 64) ∧
    (0 < sig.length →
      (hexEncode ((sig.drop (32 * ((chunks32 sig).length - 1))).take 32)).length =
        if sig.length % 32 = 0 then 64 else 2 * (sig.length % 32)) := by
  refine ⟨rfl, chunks32_length sig, fun i hi => chunks32_get sig i hi, ?_, ?_⟩
  · intro i hi
    rw [chunks32_length] at hi
    rw [hexEncode_length, List.length_take, List.length_drop]
    omega
  · intro hpos
    rw [chunks32_length, hexEncode_length, List.length_take, List.length_drop]
    by_cases h32 : sig.length % 32 = 0
    · rw [if_pos h32]; omega
    · rw [if_neg h32]; omega

/-- C8, witness on a 33-byte signature (two chunks, short final line). -/
theorem signature_hex_chunking_witness :
    (chunks32 (List.replicate 33 7)).length = ((List.replicate 33 7).length + 31) / 32 ∧
    (chunks32 (List.replicate 33 7)).get? 0 =
      some (((List.replicate 33 7).drop (32 * 0)).take 32) ∧
    (hexEncode (((List.replicate 33 7).drop (32 * 0)).take 32)).length = 64 ∧
    (hexEncode (((List.replicate 33 7).drop
        (32 * ((chunks32 (List.replicate 33 7)).length - 1))).take 32)).length =
      if (List.replicate 33 7).length % 32 = 0 then 64
      else 2 * ((List.replicate 33 7).length % 32) := by
  have h := signature_hex_chunking (List.replicate 33 7)
  exact ⟨h.2.1, h.2.2.1 0 (by decide), h.2.2.2.1 0 (by decide), h.2.2.2.2 (by decide)⟩

/-- C9.  In-bounds pixel grid rendering: for each row in `0..height` and
each column in `0..width`, the raw byte `pixel[row*width+col]` is written
unchanged to the serial line, a newline follows each row, and one blank
line follows the grid. -/
theorem pixel_grid_render (height width : Nat) (pixel : List Nat)
    (hb : height * width ≤ pixel.length) :
    pixelGridOut height width pixel =
      some ((List.range height).flatMap
        (fun row => ((List.range width).map
          (fun col => OutChunk.raw ((pixel.get? (row * width + col)).getD 0))) ++
          [OutChunk.newline]) ++ [OutChunk.newline]) :=
  pixelGridOut_some height width pixel hb

/-- C9, witness: a 2-by-2 grid over a four-byte buffer. -/
theorem pixel_grid_render_witness :
    pixelGridOut 2 2 [7, 8, 9, 10] =
      some ((List.range 2).flatMap
        (fun row => ((List.range 2).map
          (fun col => OutChunk.raw ((([7, 8, 9, 10] : List Nat).get? (row * 2 + col)).getD 0))) ++
          [OutChunk.newline]) ++ [OutChunk.newline]) :=
  pixel_grid_render 2 2 [7, 8, 9, 10] (by decide)

/-- C10.  The code never validates the reply's dimensions against
`masterpiece_size`: when `height*width` exceeds `masterpiece_size` (with
positive dimensions) the grid loop indexes the local pixel buffer out of
bounds and the process panics (`create` halts after the copies, producing
nothing); and the indexing stays in bounds for all rows and columns
exactly when the pixel buffer holds at least `height*width` bytes. -/
theorem missing_dimension_check (rO rI : List Nat) (d : Draft) (msg : Response)
    (h1 : d.pixel_data.length ≤ rO.length)
    (h2 : msg.masterpiece_start + msg.masterpiece_size ≤ rI.length)
    (h3 : msg.signature_start + msg.signature_size ≤ rI.length)
    (hh : 0 < msg.height) (hw : 0 < msg.width)
    (hover : msg.masterpiece_size < msg.height * msg.width) :
    (create rO rI d (some StatusMessageLabel.Ok) (some msg)).2 = none ∧
    (∀ pixel : List Nat,
      (pixelGridOut msg.height msg.width pixel).isSome = true ↔
        msg.height * msg.width ≤ pixel.length) := by
  constructor
  · have hlen : ((rI.drop msg.masterpiece_start).take msg.masterpiece_size).length =
        msg.masterpiece_size := by
      simp only [List.length_take, List.length_drop]
      omega
    have hg := pixelGridOut_none msg.height msg.width
      ((rI.drop msg.masterpiece_start).take msg.masterpiece_size) hh hw (by omega)
    rw [create_gridFail h1 h2 h3 hg]
  · intro pixel
    exact pixelGridOut_isSome_iff msg.height msg.width pixel

/-- C10, witness: a reply claiming a 2-by-2 masterpiece of only 2 bytes. -/
theorem missing_dimension_check_witness :
    (create [0] [1, 2, 3] ⟨[9], 1, 1⟩ (some StatusMessageLabel.Ok)
        (some ⟨2, 2, 0, 2, 0, 1⟩)).2 = none ∧
    (∀ pixel : List Nat,
      (pixelGridOut 2 2 pixel).isSome = true ↔ 2 * 2 ≤ pixel.length) :=
  missing_dimension_check [0] [1, 2, 3] ⟨[9], 1, 1⟩ ⟨2, 2, 0, 2, 0, 1⟩
    (by decide) (by decide) (by decide) (by decide) (by decide) (by decide)

end Banscii
